import Mathlib

/-!
Verification development for the Handbrake target-size bulk encoder.

The numeric core of `src/main.py` (class `EncodingWorker`) is embedded
shallowly: Python floats become exact rationals (`ℚ`), Python `int()`
(truncation toward zero) becomes `pyInt`, fallible computations return
`Option`, and the interaction with the external tools (MediaInfo, ffmpeg,
HandBrakeCLI) is abstracted into explicit environment records whose fields
give the outcome of each external call.
-/

namespace HandbrakeEncoder

/-- Python `int()` applied to a real number: truncation toward zero. -/
def pyInt (q : ℚ) : ℤ := if 0 ≤ q then ⌊q⌋ else ⌈q⌉

/-- Nearest-integer rounding with ties to even, the rule of Python
`round` on an exact value. -/
def roundHalfEven (s : ℚ) : ℤ :=
  if s - (⌊s⌋ : ℚ) < 1/2 then ⌊s⌋
  else if 1/2 < s - (⌊s⌋ : ℚ) then ⌊s⌋ + 1
  else if 2 ∣ ⌊s⌋ then ⌊s⌋ else ⌊s⌋ + 1

/-- Python `round(x, 2)`: round to the nearest multiple of 1/100,
ties going to the even multiple. -/
def round2 (q : ℚ) : ℚ :=
  (roundHalfEven (q * 100) : ℚ) / 100

/-- Summation used in `calculate_video_bitrate`:
`sum([float(bitrate) for bitrate in audio_bitrate_values])`.  Each list
entry is the result of parsing one value (`none` = the string is not
numeric, in which case Python raises `ValueError`). -/
def sumFloats : List (Option ℚ) → Option ℚ
  | [] => some 0
  | none :: _ => none
  | some q :: rest => (sumFloats rest).map (fun s => q + s)

/-- Embeds `EncodingWorker.calculate_video_bitrate` (src/main.py lines
583-615).  `targetSize` is the result of `float(self.target_size_mb)`
(`none` = not parseable), `duration` mirrors the nullable duration
argument, and `audioVals` are the parse results of the audio bitrate
strings.  Returns `none` exactly on the code's error returns. -/
def calculate_video_bitrate (targetSize : Option ℚ) (duration : Option ℚ)
    (audioVals : List (Option ℚ)) : Option ℤ :=
  match targetSize with
  | none => none
  | some t =>
    match duration with
    | none => none
    | some d =>
      if d ≤ 0 then none
      else if audioVals.isEmpty then none
      else
        match sumFloats audioVals with
        | none => none
        | some s =>
          some (pyInt ((t * 8 * 1024 * 1024 / d - s * 1000) / 1000))

/-- The `BitRate` field of one MediaInfo audio track: absent (or empty),
the literal "N/A" (any letter case), or a numeric value in bits per
second. -/
inductive BitRateField
  | absent
  | na
  | num (bps : ℚ)
deriving DecidableEq

/-- Contribution of one audio track inside the summation loop of
`get_audio_bitrate` (src/main.py lines 572-577): tracks whose `BitRate`
is missing or "N/A" are skipped, numeric tracks add `bitrate / 1000`. -/
def trackKbps : BitRateField → ℚ
  | .absent => 0
  | .na => 0
  | .num bps => bps / 1000

/-- Loop of `get_audio_bitrate`: running total over the audio tracks. -/
def audioSumKbps : List BitRateField → ℚ
  | [] => 0
  | t :: ts => trackKbps t + audioSumKbps ts

/-- Embeds `EncodingWorker.get_audio_bitrate` (src/main.py lines 561-581)
on a successfully inspected file: total audio bitrate in kbps over all
audio tracks, truncated by Python `int()`. -/
def get_audio_bitrate (tracks : List BitRateField) : ℤ :=
  pyInt (audioSumKbps tracks)

theorem sumFloats_map_some (vals : List ℚ) : sumFloats (vals.map some) = some vals.sum := by
  induction vals with
  | nil => rfl
  | cons v rest ih => simp [sumFloats, ih, List.sum_cons]

theorem sumFloats_eq_none_iff (vals : List (Option ℚ)) :
    sumFloats vals = none ↔ none ∈ vals := by
  induction vals with
  | nil => simp [sumFloats]
  | cons v rest ih =>
    cases v with
    | none => simp [sumFloats]
    | some q =>
      have hmap : sumFloats (some q :: rest) = (sumFloats rest).map (fun s => q + s) := rfl
      rw [hmap]
      cases hrest : sumFloats rest with
      | none =>
        simp only [Option.map_none, List.mem_cons]
        constructor
        · intro _; exact Or.inr (ih.mp hrest)
        · intro _; rfl
      | some s =>
        simp only [Option.map_some, List.mem_cons]
        constructor
        · intro h; exact absurd h (by simp)
        · intro h
          rcases h with h | h
          · exact absurd h (by simp)
          · rw [ih.mpr h] at hrest; exact Option.noConfusion hrest

theorem pyInt_of_nonneg (q : ℚ) (h : 0 ≤ q) : pyInt q = ⌊q⌋ := by
  simp [pyInt, h]

theorem pyInt_of_neg (q : ℚ) (h : q < 0) : pyInt q = ⌈q⌉ := by
  simp [pyInt, not_le.mpr h]

theorem roundHalfEven_bounds (s : ℚ) :
    s - 1/2 ≤ (roundHalfEven s : ℚ) ∧ (roundHalfEven s : ℚ) ≤ s + 1/2 := by
  have hfl : (⌊s⌋ : ℚ) ≤ s := Int.floor_le _
  have hfu : s < (⌊s⌋ : ℚ) + 1 := Int.lt_floor_add_one _
  unfold roundHalfEven
  by_cases h1 : s - (⌊s⌋ : ℚ) < 1/2
  · rw [if_pos h1]
    constructor <;> linarith
  · rw [if_neg h1]
    by_cases h2 : 1/2 < s - (⌊s⌋ : ℚ)
    · rw [if_pos h2]
      push_cast
      constructor <;> linarith
    · rw [if_neg h2]
      by_cases h3 : 2 ∣ ⌊s⌋
      · rw [if_pos h3]
        constructor <;> linarith
      · rw [if_neg h3]
        push_cast
        constructor <;> linarith

theorem round2_bounds (q : ℚ) : q - 1/200 ≤ round2 q ∧ round2 q ≤ q + 1/200 := by
  obtain ⟨h1, h2⟩ := roundHalfEven_bounds (q * 100)
  unfold round2
  constructor
  · rw [le_div_iff₀ (by norm_num : (0:ℚ) < 100)]
    linarith
  · rw [div_le_iff₀ (by norm_num : (0:ℚ) < 100)]
    linarith

/-- Per-batch configuration drawn from the GUI state that
`EncodingWorker.run` reads: the audio encoder selector, the audio
bitrate entry (as the per-item `int()` parse results of the
comma-separated string; `none` for the whole field = the string is
empty), and the `float()` parse result of the target size entry. -/
structure JobConfig where
  audioEncoder : String
  audioBitrate : Option (List (Option ℤ))
  targetSize : Option ℚ
deriving DecidableEq

/-- Per-file data as `EncodingWorker.run` observes it: the duration
MediaInfo reports (`none` = unavailable), the audio track list MediaInfo
reports (`none` = inspection failed), the 0-based selected audio track
indices for this file, and whether the HandBrakeCLI invocation for the
file exits with code 0. -/
structure FileInfo where
  duration : Option ℚ
  audioTracks : Option (List BitRateField)
  selectedTracks : List ℕ
  encodeExitZero : Bool
deriving DecidableEq

/-- Outcome of one file inside the batch loop of `EncodingWorker.run`:
each failure constructor corresponds to one `continue`-guarded error
branch, `completed` carries the video bitrate handed to HandBrakeCLI. -/
inductive FileOutcome
  | durationError
  | audioBitrateError
  | invalidAudioBitrate
  | noAudioBitrate
  | trackMismatch
  | bitrateCalcError
  | encodeFailed
  | completed (bitrateKbps : ℤ)
deriving DecidableEq

/-- The `[int(bitrate) for bitrate in bitrate_values]` validation of
src/main.py line 321: all items must parse as integers, a single
failure raises `ValueError`. -/
def allInts : List (Option ℤ) → Option (List ℤ)
  | [] => some []
  | none :: _ => none
  | some z :: rest => (allInts rest).map (fun l => z :: l)

/-- Tail of the per-file fixed-bitrate path (src/main.py lines 343-348
and 495-525): compute the video bitrate from the resolved audio values,
fail the file when the calculation returns `None`, otherwise run
HandBrakeCLI and report success or failure from its exit code. -/
def finishFixed (cfg : JobConfig) (dur : ℚ) (audioVals : List ℚ) (f : FileInfo) : FileOutcome :=
  match calculate_video_bitrate cfg.targetSize (some dur) (audioVals.map some) with
  | none => .bitrateCalcError
  | some b => if f.encodeExitZero then .completed b else .encodeFailed

/-- One iteration of the batch loop of `EncodingWorker.run`
(src/main.py lines 287-525, fixed-bitrate mode): duration lookup, audio
bitrate resolution (source total in `copy` mode, configured per-track
values restricted to the file's selected tracks otherwise), the
selected-track/bitrate-count validation, and the encode itself. -/
def processFile (cfg : JobConfig) (f : FileInfo) : FileOutcome :=
  match f.duration with
  | none => .durationError
  | some dur =>
    if cfg.audioEncoder = "copy" then
      match f.audioTracks with
      | none => .audioBitrateError
      | some tracks =>
        finishFixed cfg dur [((get_audio_bitrate tracks : ℤ) : ℚ)] f
    else
      match cfg.audioBitrate with
      | none => .noAudioBitrate
      | some raw =>
        match allInts raw with
        | none => .invalidAudioBitrate
        | some vals =>
          let sel := f.selectedTracks.filterMap (fun i => vals.get? i)
          if sel.length ≠ f.selectedTracks.length then .trackMismatch
          else finishFixed cfg dur (sel.map (fun z => (z : ℚ))) f

/-- Batch loop of `EncodingWorker.run`: every error branch ends in
`continue`, so each file yields an outcome and processing always moves
on to the next file. -/
def runBatch (cfg : JobConfig) : List FileInfo → List FileOutcome
  | [] => []
  | f :: fs => processFile cfg f :: runBatch cfg fs

/-- Result of one HandBrakeCLI sample encode inside
`estimate_rf_value`: non-zero exit, zero exit with the output file
missing, or zero exit with an output file of the given size in bytes. -/
inductive EncodeResult
  | fail
  | noOutput
  | ok (sizeBytes : ℚ)
deriving DecidableEq

/-- External-tool behaviour that `estimate_rf_value` observes: the
duration from `get_duration`, whether the ffmpeg sample extraction
exits with code 0, and the result of the sample encode at a given
iteration number (starting at 1) and RF value. -/
structure EstimatorEnv where
  duration : Option ℚ
  extractOk : Bool
  encode : ℕ → ℚ → EncodeResult

/-- Existence of the two temporary files the estimator manages in the
destination folder: the extracted source sample (`temp_sample.mkv`) and
the encoded sample (`temp_encoded_sample.mkv`). -/
structure TempFiles where
  sample : Bool
  encoded : Bool
deriving DecidableEq

/-- Bound update of the bisection search (src/main.py lines 770-776):
an estimate above the acceptance band raises the lower RF bound to the
current candidate, otherwise the upper bound drops to it. -/
def bisectStep (target lower upper rf estMB : ℚ) : ℚ × ℚ :=
  if estMB > target * (21/20) then (rf, upper) else (lower, rf)

/-- The `while iteration < max_iterations` loop of
`estimate_rf_value` (src/main.py lines 706-790), including the final
clean-up after the loop.  Arguments after the environment and the
constants: remaining iterations, current iteration number, lower RF
bound, upper RF bound, current candidate, and the temporary-file state.
Returns the value of the Python function together with the final
temporary-file state. -/
def rfLoop (env : EstimatorEnv) (dur sDur target aTot : ℚ) :
    ℕ → ℕ → ℚ → ℚ → ℚ → TempFiles → Option ℚ × TempFiles
  | 0, _, _, _, rf, _ => (some (round2 rf), ⟨false, false⟩)
  | n + 1, iter, lower, upper, rf, st =>
    match env.encode iter rf with
    | .fail => (none, st)
    | .noOutput => (none, st)
    | .ok size =>
      let estMB := (size * (dur / sDur) + aTot * 1000 / 8 * dur) / (1024 * 1024)
      if target * (19/20) ≤ estMB ∧ estMB ≤ target * (21/20) then
        (some (round2 rf), ⟨false, false⟩)
      else
        let p := bisectStep target lower upper rf estMB
        rfLoop env dur sDur target aTot n (iter + 1) p.1 p.2 ((p.1 + p.2) / 2) ⟨st.sample, false⟩

/-- Embeds `EncodingWorker.estimate_rf_value` (src/main.py lines
656-794) for positive durations: duration lookup, removal of stale
temporary files, sample extraction, then the bisection loop starting
from bounds [18, 40] at their midpoint.  `st0` is the temporary-file
state found on entry. -/
def estimate_rf_value (env : EstimatorEnv) (target : ℚ) (audioVals : List ℚ)
    (st0 : TempFiles) : Option ℚ × TempFiles :=
  match env.duration with
  | none => (none, st0)
  | some duration =>
    let sampleDuration := duration * (1/20)
    if env.extractOk then
      rfLoop env duration sampleDuration target audioVals.sum 10 1 18 40 ((18 + 40) / 2)
        ⟨true, false⟩
    else
      (none, ⟨false, false⟩)

/-- One argument of an external command line: a literal string or a
number rendered with `str(...)`. -/
inductive Arg
  | lit (s : String)
  | rat (q : ℚ)
deriving DecidableEq

/-- Embeds the ffmpeg sample-extraction command of `estimate_rf_value`
(src/main.py lines 664-688): 5% of the duration, starting so that the
clip is centred at the midpoint, stream-copied into the temporary
sample file. -/
def ffmpeg_extract_cmd (ffmpegExe inputPath tempSampleFile : String) (duration : ℚ) :
    List Arg :=
  let samplePercentage : ℚ := 1/20
  let sampleDuration := duration * samplePercentage
  let sampleStart := (duration - sampleDuration) / 2
  [.lit ffmpegExe, .lit "-y", .lit "-ss", .rat sampleStart, .lit "-i", .lit inputPath,
   .lit "-t", .rat sampleDuration, .lit "-c", .lit "copy", .lit tempSampleFile]

/-- Longest leading run of ASCII digits of a character list, together
with the remainder: the greedy `\d+` of the progress regexes. -/
def digitRun : List Char → List Char × List Char
  | [] => ([], [])
  | c :: rest =>
    if c.isDigit then
      let p := digitRun rest
      (c :: p.1, p.2)
    else ([], c :: rest)

/-- Match of the pattern `(\d+\.\d+) %` anchored at the head of the
list (src/main.py line 631).  Greedy `\d+` with backtracking reduces to
the maximal digit runs, because any shorter run is followed by another
digit where the pattern requires `.` or a space.  Returns the digits
before and after the decimal point. -/
def matchDecAt (cs : List Char) : Option (List Char × List Char) :=
  let p1 := digitRun cs
  if p1.1 = [] then none
  else
    match p1.2 with
    | '.' :: rest2 =>
      let p2 := digitRun rest2
      if p2.1 = [] then none
      else
        match p2.2 with
        | ' ' :: '%' :: _ => some (p1.1, p2.1)
        | _ => none
    | _ => none

/-- Match of the pattern `(\d+) %` anchored at the head of the list
(src/main.py line 640). -/
def matchIntAt (cs : List Char) : Option (List Char) :=
  let p1 := digitRun cs
  if p1.1 = [] then none
  else
    match p1.2 with
    | ' ' :: '%' :: _ => some p1.1
    | _ => none

/-- Leftmost match of `(\d+\.\d+) %`, the `re.search` of src/main.py
line 631. -/
def searchDec : List Char → Option (List Char × List Char)
  | [] => none
  | c :: cs =>
    match matchDecAt (c :: cs) with
    | some r => some r
    | none => searchDec cs

/-- Leftmost match of `(\d+) %`, the `re.search` of src/main.py line
640. -/
def searchInt : List Char → Option (List Char)
  | [] => none
  | c :: cs =>
    match matchIntAt (c :: cs) with
    | some r => some r
    | none => searchInt cs

/-- Numeric value of a digit string. -/
def digitsToNat (ds : List Char) : ℕ :=
  ds.foldl (fun n c => 10 * n + (c.toNat - '0'.toNat)) 0

/-- Value of `float(...)` on the two captured digit groups of the
decimal pattern. -/
def decValue (intPart fracPart : List Char) : ℚ :=
  (digitsToNat intPart : ℚ) + (digitsToNat fracPart : ℚ) / (10 ^ fracPart.length : ℕ)

/-- Percentage a HandBrakeCLI output line yields under
`parse_handbrake_output` (src/main.py lines 627-645): the decimal
pattern is tried first, then the integer pattern; `none` = neither
matches and no progress signal is emitted. -/
def extract_percentage (line : String) : Option ℚ :=
  match searchDec line.toList with
  | some r => some (decValue r.1 r.2)
  | none =>
    match searchInt line.toList with
    | some r => some ((digitsToNat r : ℚ))
    | none => none

/-- Pair of progress values emitted for one matching output line: the
overall batch percentage and the current-file percentage, both as the
`int(...)` of the computed floats. -/
structure ProgressUpdate where
  overall : ℤ
  currentFile : ℤ
deriving DecidableEq

/-- Embeds `EncodingWorker.parse_handbrake_output` (src/main.py lines
627-645) at a given count of already processed files and total file
count: on a match it emits the overall progress
`int((processed + percentage/100) / total * 100)` and the current-file
progress `int(percentage)`; otherwise nothing. -/
def parse_handbrake_output (processedFiles totalFiles : ℕ) (line : String) :
    Option ProgressUpdate :=
  (extract_percentage line).map (fun p =>
    ⟨pyInt (((processedFiles : ℚ) + p / 100) / (totalFiles : ℚ) * 100), pyInt p⟩)

/-- Embeds `EncodingWorker.update_overall_progress` (src/main.py lines
530-535): overall percentage from the processed-file count and the
current file's progress percentage. -/
def update_overall_progress (totalFiles : ℕ) (processed : ℕ) (currentFileProgress : ℚ) : ℤ :=
  pyInt (((processed : ℚ) + currentFileProgress / 100) / (totalFiles : ℚ) * 100)

/-- Modelled from the spec: a progress token is "a decimal or integer
number immediately followed by a percent sign".  Match of that token
anchored at the head of the list. -/
def specTokenAt (cs : List Char) : Option ℚ :=
  let p1 := digitRun cs
  if p1.1 = [] then none
  else
    match p1.2 with
    | '.' :: rest2 =>
      let p2 := digitRun rest2
      if p2.1 = [] then none
      else
        match p2.2 with
        | '%' :: _ => some (decValue p1.1 p2.1)
        | _ => none
    | '%' :: _ => some ((digitsToNat p1.1 : ℚ))
    | _ => none

/-- Modelled from the spec: leftmost occurrence of a number immediately
followed by a percent sign in a line. -/
def specTokenSearch : List Char → Option ℚ
  | [] => none
  | c :: cs =>
    match specTokenAt (c :: cs) with
    | some r => some r
    | none => specTokenSearch cs

/-- Modelled from the spec: the percentage the claim says progress
parsing extracts from a line. -/
def spec_progress_token (line : String) : Option ℚ :=
  specTokenSearch line.toList

theorem rfLoop_some_state (env : EstimatorEnv) (dur sDur target aTot : ℚ) :
    ∀ (n iter : ℕ) (lower upper rf : ℚ) (st : TempFiles) (q : ℚ) (st1 : TempFiles),
      rfLoop env dur sDur target aTot n iter lower upper rf st = (some q, st1) →
      st1 = ⟨false, false⟩ := by
  intro n
  induction n with
  | zero =>
    intro iter lower upper rf st q st1 hrun
    simp only [rfLoop, Prod.mk.injEq] at hrun
    exact hrun.2.symm
  | succ n ih =>
    intro iter lower upper rf st q st1 hrun
    simp only [rfLoop] at hrun
    cases henc : env.encode iter rf with
    | fail => rw [henc] at hrun; exact absurd (congrArg Prod.fst hrun) (by simp)
    | noOutput => rw [henc] at hrun; exact absurd (congrArg Prod.fst hrun) (by simp)
    | ok size =>
      rw [henc] at hrun
      dsimp only at hrun
      by_cases hband : target * (19/20) ≤
          (size * (dur / sDur) + aTot * 1000 / 8 * dur) / (1024 * 1024) ∧
          (size * (dur / sDur) + aTot * 1000 / 8 * dur) / (1024 * 1024) ≤ target * (21/20)
      · rw [if_pos hband] at hrun
        exact (Prod.mk.injEq _ _ _ _ ▸ hrun).2.symm
      · rw [if_neg hband] at hrun
        exact ih _ _ _ _ _ _ _ hrun

theorem rfLoop_some_range (env : EstimatorEnv) (dur sDur target aTot : ℚ) :
    ∀ (n iter : ℕ) (lower upper rf : ℚ) (st : TempFiles) (q : ℚ) (st1 : TempFiles),
      18 ≤ lower → upper ≤ 40 → rf = (lower + upper) / 2 →
      (2 ^ n : ℚ) * (1/100) < upper - lower →
      rfLoop env dur sDur target aTot n iter lower upper rf st = (some q, st1) →
      18 ≤ q ∧ q ≤ 40 := by
  intro n
  induction n with
  | zero =>
    intro iter lower upper rf st q st1 hl hu hrf hgap hrun
    simp only [rfLoop, Prod.mk.injEq, Option.some.injEq] at hrun
    obtain ⟨hb1, hb2⟩ := round2_bounds rf
    rw [pow_zero, one_mul] at hgap
    subst hrf
    rw [← hrun.1]
    constructor <;> linarith
  | succ n ih =>
    intro iter lower upper rf st q st1 hl hu hrf hgap hrun
    have hpow1 : (1:ℚ) ≤ 2 ^ n := one_le_pow₀ (by norm_num)
    rw [pow_succ] at hgap
    simp only [rfLoop] at hrun
    cases henc : env.encode iter rf with
    | fail => rw [henc] at hrun; exact absurd (congrArg Prod.fst hrun) (by simp)
    | noOutput => rw [henc] at hrun; exact absurd (congrArg Prod.fst hrun) (by simp)
    | ok size =>
      rw [henc] at hrun
      dsimp only at hrun
      by_cases hband : target * (19/20) ≤
          (size * (dur / sDur) + aTot * 1000 / 8 * dur) / (1024 * 1024) ∧
          (size * (dur / sDur) + aTot * 1000 / 8 * dur) / (1024 * 1024) ≤ target * (21/20)
      · rw [if_pos hband] at hrun
        simp only [Prod.mk.injEq, Option.some.injEq] at hrun
        obtain ⟨hb1, hb2⟩ := round2_bounds rf
        subst hrf
        rw [← hrun.1]
        constructor <;> linarith
      · rw [if_neg hband] at hrun
        unfold bisectStep at hrun
        by_cases hbig : (size * (dur / sDur) + aTot * 1000 / 8 * dur) / (1024 * 1024) >
            target * (21/20)
        · rw [if_pos hbig] at hrun
          refine ih _ _ _ _ _ _ _ ?_ ?_ rfl ?_ hrun
          · subst hrf; linarith
          · exact hu
          · subst hrf; linarith
        · rw [if_neg hbig] at hrun
          refine ih _ _ _ _ _ _ _ hl ?_ rfl ?_ hrun
          · subst hrf; linarith
          · subst hrf; linarith

theorem rfLoop_ok_isSome (env : EstimatorEnv) (dur sDur target aTot : ℚ)
    (hok : ∀ i rf, ∃ s, env.encode i rf = EncodeResult.ok s) :
    ∀ (n iter : ℕ) (lower upper rf : ℚ) (st : TempFiles),
      (rfLoop env dur sDur target aTot n iter lower upper rf st).1.isSome = true := by
  intro n
  induction n with
  | zero =>
    intro iter lower upper rf st
    simp [rfLoop]
  | succ n ih =>
    intro iter lower upper rf st
    obtain ⟨s, hs⟩ := hok iter rf
    simp only [rfLoop, hs]
    by_cases hband : target * (19/20) ≤
        (s * (dur / sDur) + aTot * 1000 / 8 * dur) / (1024 * 1024) ∧
        (s * (dur / sDur) + aTot * 1000 / 8 * dur) / (1024 * 1024) ≤ target * (21/20)
    · rw [if_pos hband]
      rfl
    · rw [if_neg hband]
      exact ih _ _ _ _ _

theorem rfLoop_encoded_false (env : EstimatorEnv) (dur sDur target aTot : ℚ) :
    ∀ (n iter : ℕ) (lower upper rf : ℚ) (st : TempFiles),
      st.encoded = false →
      ((rfLoop env dur sDur target aTot n iter lower upper rf st).2).encoded = false := by
  intro n
  induction n with
  | zero =>
    intro iter lower upper rf st hst
    simp [rfLoop]
  | succ n ih =>
    intro iter lower upper rf st hst
    cases henc : env.encode iter rf with
    | fail => simp [rfLoop, henc, hst]
    | noOutput => simp [rfLoop, henc, hst]
    | ok size =>
      simp only [rfLoop, henc]
      by_cases hband : target * (19/20) ≤
          (size * (dur / sDur) + aTot * 1000 / 8 * dur) / (1024 * 1024) ∧
          (size * (dur / sDur) + aTot * 1000 / 8 * dur) / (1024 * 1024) ≤ target * (21/20)
      · rw [if_pos hband]
      · rw [if_neg hband]
        exact ih _ _ _ _ _ rfl

theorem audioSumKbps_eq_map_sum (tracks : List BitRateField) :
    audioSumKbps tracks = (tracks.map trackKbps).sum := by
  induction tracks with
  | nil => rfl
  | cons t ts ih => simp [audioSumKbps, ih]

/-- C1 (amended): for a positive duration, a float-parseable target size and a
non-empty list of numeric audio bitrate values, the fixed-bitrate calculation
returns exactly the integer part, in the sense of truncation toward zero
(Python `int()`, which equals the floor only for non-negative results), of
((targetSizeMB × 8 × 1024 × 1024 / durationSeconds) − totalAudioBitrateKbps × 1000) / 1000,
and is deterministic because the result is this function of the inputs alone. -/
theorem C1_fixed_bitrate_formula (d t : ℚ) (vals : List ℚ)
    (hd : 0 < d) (hne : vals ≠ []) :
    calculate_video_bitrate (some t) (some d) (vals.map some)
      = some (pyInt ((t * 8 * 1024 * 1024 / d - vals.sum * 1000) / 1000)) := by
  have hemp : ¬((vals.map some : List (Option ℚ)).isEmpty = true) := by
    simp [List.isEmpty_iff, hne]
  simp only [calculate_video_bitrate]
  rw [if_neg (not_le.mpr hd), if_neg hemp, sumFloats_map_some]

/-- Witness for C1: duration 1 s, target 1 MB, one audio track of 10000 kbps. -/
theorem C1_fixed_bitrate_formula_witness :
    (0 : ℚ) < 1 ∧ ([10000] : List ℚ) ≠ [] ∧
    calculate_video_bitrate (some 1) (some 1) (([10000] : List ℚ).map some)
      = some (pyInt ((1 * 8 * 1024 * 1024 / 1 - ([10000] : List ℚ).sum * 1000) / 1000)) :=
  ⟨by norm_num, by simp, C1_fixed_bitrate_formula 1 1 [10000] (by norm_num) (by simp)⟩

/-- C1 counterexample: at duration 1 s, target 1 MB and 10000 kbps of audio
the code returns −1611 (truncation toward zero of −1611.392) while the floor
demanded by the claim is −1612. -/
theorem C1_floor_counterexample :
    calculate_video_bitrate (some 1) (some 1) [some 10000] = some (-1611) ∧
    ⌊(((1 : ℚ) * 8 * 1024 * 1024 / 1 - 10000 * 1000) / 1000 : ℚ)⌋ = -1612 :=
  ⟨by with_unfolding_all rfl, by with_unfolding_all rfl⟩

/-- C2 (amended): the fixed-bitrate calculation fails exactly when the
duration is missing or ≤ 0, the target size does not parse as a float (it is
not required to be positive), or the audio bitrate values are missing or
non-numeric; and a negative computed bitrate is not treated as a failure by
the orchestrator: whenever the calculation returns any value b the file
proceeds to the transcoder with b and completes when the transcoder exits 0. -/
theorem C2_failure_characterisation :
    (∀ (t d : Option ℚ) (a : List (Option ℚ)),
        calculate_video_bitrate t d a = none ↔
          (t = none ∨ d = none ∨ (∃ q, d = some q ∧ q ≤ 0) ∨ a = [] ∨ none ∈ a)) ∧
    (∀ (cfg : JobConfig) (dur : ℚ) (audioVals : List ℚ) (f : FileInfo) (b : ℤ),
        f.encodeExitZero = true →
        calculate_video_bitrate cfg.targetSize (some dur) (audioVals.map some) = some b →
        finishFixed cfg dur audioVals f = .completed b) := by
  constructor
  · intro t d a
    cases t with
    | none => simp [calculate_video_bitrate]
    | some tv =>
      cases d with
      | none => simp [calculate_video_bitrate]
      | some dv =>
        simp only [calculate_video_bitrate]
        by_cases hd : dv ≤ 0
        · rw [if_pos hd]
          simp [hd]
        · rw [if_neg hd]
          by_cases ha : a.isEmpty
          · rw [if_pos ha]
            have hanil : a = [] := List.isEmpty_iff.mp ha
            simp [hanil]
          · rw [if_neg ha]
            have hane : a ≠ [] := fun h => ha (by simp [h])
            cases hsum : sumFloats a with
            | none =>
              simp [(sumFloats_eq_none_iff a).mp hsum, hd, hane]
            | some s =>
              have hnomem : none ∉ a := fun hmem => by
                rw [(sumFloats_eq_none_iff a).mpr hmem] at hsum
                exact Option.noConfusion hsum
              simp [hd, hane, hnomem]
  · intro cfg dur audioVals f b hexit hcalc
    unfold finishFixed
    rw [hcalc]
    dsimp only
    rw [if_pos hexit]

/-- Witness for C2: a 10000 kbps audio configuration at target 1 MB and
duration 1 s computes the negative bitrate −1611, and the file is handed to
the transcoder and completes. -/
theorem C2_failure_characterisation_witness :
    finishFixed ⟨"aac", some [some 10000], some 1⟩ 1 [10000] ⟨some 1, none, [0], true⟩
      = .completed (-1611) :=
  C2_failure_characterisation.2 ⟨"aac", some [some 10000], some 1⟩ 1 [10000]
    ⟨some 1, none, [0], true⟩ (-1611) rfl (by with_unfolding_all rfl)

/-- C2 counterexample: the parseable negative target −1 MB does not make the
calculation fail (the claim requires failure for any non-positive target),
and the computed negative bitrate −1611 is not treated as a hard failure by
the batch loop: the file is encoded and reported completed. -/
theorem C2_counterexample :
    calculate_video_bitrate (some (-1)) (some 1) [some 0] = some (-8388) ∧
    processFile ⟨"aac", some [some 10000], some 1⟩ ⟨some 1, none, [0], true⟩
      = .completed (-1611) :=
  ⟨by with_unfolding_all rfl, by with_unfolding_all rfl⟩

/-- C3: every quality value the estimator returns lies within the initial
bounds [18, 40]; the bisection starts at the midpoint of those bounds; and
each iteration replaces exactly one bound by the current candidate, so the
width of the search interval halves every iteration. -/
theorem C3_rf_within_bounds :
    (∀ (env : EstimatorEnv) (target : ℚ) (audioVals : List ℚ) (st0 : TempFiles)
        (q : ℚ) (st1 : TempFiles),
        estimate_rf_value env target audioVals st0 = (some q, st1) →
        18 ≤ q ∧ q ≤ 40) ∧
    (∀ (env : EstimatorEnv) (target : ℚ) (audioVals : List ℚ) (st0 : TempFiles) (d : ℚ),
        env.duration = some d → env.extractOk = true →
        estimate_rf_value env target audioVals st0 =
          rfLoop env d (d * (1/20)) target audioVals.sum 10 1 18 40 ((18 + 40) / 2)
            ⟨true, false⟩) ∧
    (∀ (t lower upper rf est : ℚ), rf = (lower + upper) / 2 →
        (bisectStep t lower upper rf est).2 - (bisectStep t lower upper rf est).1
          = (upper - lower) / 2 ∧
        (bisectStep t lower upper rf est = (rf, upper) ∨
          bisectStep t lower upper rf est = (lower, rf))) := by
  refine ⟨?_, ?_, ?_⟩
  · intro env target audioVals st0 q st1 hrun
    unfold estimate_rf_value at hrun
    cases hdur : env.duration with
    | none =>
      rw [hdur] at hrun
      exact absurd (congrArg Prod.fst hrun) (by simp)
    | some d =>
      rw [hdur] at hrun
      dsimp only at hrun
      cases hext : env.extractOk with
      | false =>
        rw [hext] at hrun
        simp only [Bool.false_eq_true, if_false] at hrun
        exact absurd (congrArg Prod.fst hrun) (by simp)
      | true =>
        rw [hext] at hrun
        simp only [if_true] at hrun
        exact rfLoop_some_range env d (d * (1/20)) target audioVals.sum 10 1 18 40
          ((18 + 40) / 2) ⟨true, false⟩ q st1 (by norm_num) (by norm_num) (by norm_num)
          (by norm_num) hrun
  · intro env target audioVals st0 d hdur hext
    unfold estimate_rf_value
    rw [hdur]
    dsimp only
    rw [hext]
    simp only [if_true]
  · intro t lower upper rf est hrf
    unfold bisectStep
    by_cases hbig : est > t * (21/20)
    · rw [if_pos hbig]
      subst hrf
      exact ⟨by ring, Or.inl rfl⟩
    · rw [if_neg hbig]
      subst hrf
      exact ⟨by ring, Or.inr rfl⟩

/-- Witness for C3: an environment whose first sample encode lands exactly on
the target makes the estimator return 29, the midpoint, and 29 lies in
[18, 40]. -/
theorem C3_rf_within_bounds_witness :
    estimate_rf_value ⟨some 100, true, fun _ _ => EncodeResult.ok (5 * 2 ^ 20)⟩ 100 []
        ⟨false, false⟩ = (some 29, ⟨false, false⟩) ∧
      (18 ≤ (29 : ℚ) ∧ (29 : ℚ) ≤ 40) :=
  ⟨by with_unfolding_all rfl,
   C3_rf_within_bounds.1 ⟨some 100, true, fun _ _ => EncodeResult.ok (5 * 2 ^ 20)⟩ 100 []
     ⟨false, false⟩ 29 ⟨false, false⟩ (by with_unfolding_all rfl)⟩

/-- C4: in each estimator iteration the full-file size is extrapolated as
sampleOutputSize × (fullDuration / sampleDuration) + audioSizeEstimate with
audioSizeEstimate = totalAudioBitrateKbps × 1000 / 8 × fullDuration; when
that estimate (in MB) lies within ±5% of the target size, the loop stops and
the current candidate, rounded to 2 decimal places, is returned. -/
theorem C4_accept_within_band (env : EstimatorEnv) (dur sDur target aTot : ℚ)
    (n iter : ℕ) (lower upper rf : ℚ) (st : TempFiles) (size : ℚ)
    (henc : env.encode iter rf = EncodeResult.ok size)
    (hband : target * (19/20) ≤
        (size * (dur / sDur) + aTot * 1000 / 8 * dur) / (1024 * 1024) ∧
        (size * (dur / sDur) + aTot * 1000 / 8 * dur) / (1024 * 1024) ≤ target * (21/20)) :
    rfLoop env dur sDur target aTot (n + 1) iter lower upper rf st
      = (some (round2 rf), ⟨false, false⟩) := by
  simp only [rfLoop, henc]
  rw [if_pos hband]

/-- Witness for C4: at duration 100 s, 5 s sample, target 100 MB, no audio,
a sample of 5 MiB extrapolates to exactly 100 MB, inside the band, so the
loop returns the rounded candidate at once. -/
theorem C4_accept_within_band_witness :
    rfLoop ⟨some 100, true, fun _ _ => EncodeResult.ok (5 * 2 ^ 20)⟩ 100 (100 * (1/20)) 100 0
        10 1 18 40 ((18 + 40) / 2) ⟨true, false⟩
      = (some (round2 ((18 + 40) / 2)), ⟨false, false⟩) :=
  C4_accept_within_band ⟨some 100, true, fun _ _ => EncodeResult.ok (5 * 2 ^ 20)⟩ 100
    (100 * (1/20)) 100 0 9 1 18 40 ((18 + 40) / 2) ⟨true, false⟩ (5 * 2 ^ 20) rfl
    (by constructor <;> norm_num)

/-- C5 (amended): the estimator fails exactly on a failed duration lookup, a
failed sample extraction, a sample encode with non-zero exit, or a missing
output file after an encode; it never substitutes a default quality value
(every failure path yields `none`); and when the duration and extraction are
available and every sample encode produces an output, it returns a quality
value — in particular iteration exhaustion is a success, not a failure. -/
theorem C5_failure_modes :
    (∀ (env : EstimatorEnv) (target : ℚ) (audioVals : List ℚ) (st0 : TempFiles),
        env.duration = none → (estimate_rf_value env target audioVals st0).1 = none) ∧
    (∀ (env : EstimatorEnv) (target : ℚ) (audioVals : List ℚ) (st0 : TempFiles) (d : ℚ),
        env.duration = some d → env.extractOk = false →
        (estimate_rf_value env target audioVals st0).1 = none) ∧
    (∀ (env : EstimatorEnv) (target : ℚ) (audioVals : List ℚ) (st0 : TempFiles) (d : ℚ),
        env.duration = some d → env.extractOk = true →
        env.encode 1 ((18 + 40) / 2) = EncodeResult.fail →
        (estimate_rf_value env target audioVals st0).1 = none) ∧
    (∀ (env : EstimatorEnv) (target : ℚ) (audioVals : List ℚ) (st0 : TempFiles) (d : ℚ),
        env.duration = some d → env.extractOk = true →
        env.encode 1 ((18 + 40) / 2) = EncodeResult.noOutput →
        (estimate_rf_value env target audioVals st0).1 = none) ∧
    (∀ (env : EstimatorEnv) (target : ℚ) (audioVals : List ℚ) (st0 : TempFiles) (d : ℚ),
        env.duration = some d → env.extractOk = true →
        (∀ i rf, ∃ s, env.encode i rf = EncodeResult.ok s) →
        (estimate_rf_value env target audioVals st0).1.isSome = true) := by
  refine ⟨?_, ?_, ?_, ?_, ?_⟩
  · intro env target audioVals st0 hdur
    unfold estimate_rf_value
    rw [hdur]
  · intro env target audioVals st0 d hdur hext
    unfold estimate_rf_value
    rw [hdur]
    dsimp only
    rw [hext]
    simp
  · intro env target audioVals st0 d hdur hext henc
    unfold estimate_rf_value
    rw [hdur]
    dsimp only
    rw [hext]
    simp only [if_true]
    simp only [rfLoop, henc]
  · intro env target audioVals st0 d hdur hext henc
    unfold estimate_rf_value
    rw [hdur]
    dsimp only
    rw [hext]
    simp only [if_true]
    simp only [rfLoop, henc]
  · intro env target audioVals st0 d hdur hext hok
    unfold estimate_rf_value
    rw [hdur]
    dsimp only
    rw [hext]
    simp only [if_true]
    exact rfLoop_ok_isSome env d (d * (1/20)) target audioVals.sum hok 10 1 18 40
      ((18 + 40) / 2) ⟨true, false⟩

/-- Witness for C5: a first sample encode with non-zero exit yields failure,
while an environment whose encodes always produce a (tiny) output file never
enters the acceptance band, exhausts the 10 iterations and still succeeds. -/
theorem C5_failure_modes_witness :
    (estimate_rf_value ⟨some 100, true, fun _ _ => EncodeResult.fail⟩ 100 []
        ⟨false, false⟩).1 = none ∧
      (estimate_rf_value ⟨some 100, true, fun _ _ => EncodeResult.ok 0⟩ 100 []
        ⟨false, false⟩).1.isSome = true :=
  ⟨C5_failure_modes.2.2.1 ⟨some 100, true, fun _ _ => EncodeResult.fail⟩ 100 []
     ⟨false, false⟩ 100 rfl rfl rfl,
   C5_failure_modes.2.2.2.2 ⟨some 100, true, fun _ _ => EncodeResult.ok 0⟩ 100 []
     ⟨false, false⟩ 100 rfl rfl (fun _ _ => ⟨0, rfl⟩)⟩

/-- C5 counterexample: an input whose duration lookup fails makes the
estimator return `None` even though the sample extraction would succeed and
every sample encode would succeed — a failure mode the claim's
"if and only if" list does not contain.  With no acceptance ever reached,
exhaustion of the 10 iterations still returns a value (18.01), not a
failure. -/
theorem C5_counterexample :
    estimate_rf_value ⟨none, true, fun _ _ => EncodeResult.ok 1⟩ 100 [] ⟨false, false⟩
        = (none, ⟨false, false⟩) ∧
      estimate_rf_value ⟨some 100, true, fun _ _ => EncodeResult.ok 0⟩ 100 [] ⟨false, false⟩
        = (some (1801/100), ⟨false, false⟩) :=
  ⟨by with_unfolding_all rfl, by with_unfolding_all rfl⟩

/-- C6: the estimator's extraction command takes 5% of the total duration,
starts at (duration − sampleDuration) / 2 — so the clip is centred at the
file's midpoint — and stream-copies (no re-encoding) into the temporary
container file. -/
theorem C6_sample_extraction (fe ip tf : String) (d : ℚ) :
    (ffmpeg_extract_cmd fe ip tf d).get? 7 = some (.rat (d * (1/20))) ∧
    (ffmpeg_extract_cmd fe ip tf d).get? 3 = some (.rat ((d - d * (1/20)) / 2)) ∧
    ((d - d * (1/20)) / 2) + (d * (1/20)) / 2 = d / 2 ∧
    (ffmpeg_extract_cmd fe ip tf d).get? 8 = some (.lit "-c") ∧
    (ffmpeg_extract_cmd fe ip tf d).get? 9 = some (.lit "copy") ∧
    (ffmpeg_extract_cmd fe ip tf d).get? 10 = some (.lit tf) :=
  ⟨rfl, rfl, by ring, rfl, rfl, rfl⟩

/-- C7 (amended): whenever the estimator returns a value (acceptance or
iteration exhaustion) both temporary files are deleted; the temporary encoded
sample never survives an iteration, while the extracted source sample is
retained across iterations for reuse; but on the sample-encode-failure and
missing-output exits the estimator returns without deleting the extracted
sample (stale temporaries are instead removed at the start of the next
estimation). -/
theorem C7_temp_cleanup :
    (∀ (env : EstimatorEnv) (target : ℚ) (audioVals : List ℚ) (st0 : TempFiles)
        (q : ℚ) (st1 : TempFiles),
        estimate_rf_value env target audioVals st0 = (some q, st1) →
        st1 = ⟨false, false⟩) ∧
    (∀ (env : EstimatorEnv) (dur sDur target aTot : ℚ) (n iter : ℕ)
        (lower upper rf : ℚ) (st : TempFiles), st.encoded = false →
        ((rfLoop env dur sDur target aTot n iter lower upper rf st).2).encoded = false) ∧
    (∀ (env : EstimatorEnv) (target : ℚ) (audioVals : List ℚ) (st0 : TempFiles) (d : ℚ),
        env.duration = some d → env.extractOk = true →
        env.encode 1 ((18 + 40) / 2) = EncodeResult.fail →
        estimate_rf_value env target audioVals st0 = (none, ⟨true, false⟩)) ∧
    (∀ (env : EstimatorEnv) (target : ℚ) (audioVals : List ℚ) (st0 : TempFiles) (d : ℚ),
        env.duration = some d → env.extractOk = true →
        env.encode 1 ((18 + 40) / 2) = EncodeResult.noOutput →
        estimate_rf_value env target audioVals st0 = (none, ⟨true, false⟩)) := by
  refine ⟨?_, ?_, ?_, ?_⟩
  · intro env target audioVals st0 q st1 hrun
    unfold estimate_rf_value at hrun
    cases hdur : env.duration with
    | none =>
      rw [hdur] at hrun
      exact absurd (congrArg Prod.fst hrun) (by simp)
    | some d =>
      rw [hdur] at hrun
      dsimp only at hrun
      cases hext : env.extractOk with
      | false =>
        rw [hext] at hrun
        simp only [Bool.false_eq_true, if_false] at hrun
        exact absurd (congrArg Prod.fst hrun) (by simp)
      | true =>
        rw [hext] at hrun
        simp only [if_true] at hrun
        exact rfLoop_some_state env d (d * (1/20)) target audioVals.sum 10 1 18 40
          ((18 + 40) / 2) ⟨true, false⟩ q st1 hrun
  · intro env dur sDur target aTot n iter lower upper rf st hst
    exact rfLoop_encoded_false env dur sDur target aTot n iter lower upper rf st hst
  · intro env target audioVals st0 d hdur hext henc
    unfold estimate_rf_value
    rw [hdur]
    dsimp only
    rw [hext]
    simp only [if_true]
    simp only [rfLoop, henc]
  · intro env target audioVals st0 d hdur hext henc
    unfold estimate_rf_value
    rw [hdur]
    dsimp only
    rw [hext]
    simp only [if_true]
    simp only [rfLoop, henc]

/-- Witness for C7: a run that accepts at the first iteration ends with both
temporary files deleted, even when both existed on entry. -/
theorem C7_temp_cleanup_witness :
    (estimate_rf_value ⟨some 100, true, fun _ _ => EncodeResult.ok (5 * 2 ^ 20)⟩ 100 []
        ⟨true, true⟩).2 = ⟨false, false⟩ := by
  have h : estimate_rf_value ⟨some 100, true, fun _ _ => EncodeResult.ok (5 * 2 ^ 20)⟩ 100 []
      ⟨true, true⟩
      = (some 29, (estimate_rf_value ⟨some 100, true, fun _ _ => EncodeResult.ok (5 * 2 ^ 20)⟩
          100 [] ⟨true, true⟩).2) := by
    with_unfolding_all rfl
  exact C7_temp_cleanup.1 ⟨some 100, true, fun _ _ => EncodeResult.ok (5 * 2 ^ 20)⟩ 100 []
    ⟨true, true⟩ 29 _ h

/-- C7 counterexample: when the first sample encode fails, the estimator
returns with the extracted source sample still on disk — the claim's
"both temporary files are deleted on every exit path" fails on the
sample-encode-failure path. -/
theorem C7_counterexample :
    estimate_rf_value ⟨some 100, true, fun _ _ => EncodeResult.fail⟩ 100 [] ⟨false, false⟩
      = (none, ⟨true, false⟩) := by
  with_unfolding_all rfl

/-- C8: per-file failures never abort the batch: every file of the batch
yields its own outcome, each outcome depends only on that file; in
non-pass-through audio mode a mismatch between the bitrate values applying to
a file's selected tracks and the selected-track count yields the
configuration-mismatch failure; a non-zero transcoder exit yields the
encode-failure outcome; and the concrete 3-file batch whose second file
mismatches still processes files 1 and 3. -/
theorem C8_batch_isolation :
    (∀ (cfg : JobConfig) (files : List FileInfo),
        (runBatch cfg files).length = files.length) ∧
    (∀ (cfg : JobConfig) (files : List FileInfo) (i : ℕ),
        (runBatch cfg files).get? i = (files.get? i).map (processFile cfg)) ∧
    (∀ (enc : String) (raw : List (Option ℤ)) (vals : List ℤ) (t : Option ℚ) (d : ℚ)
        (tr : Option (List BitRateField)) (sel : List ℕ) (ex : Bool),
        enc ≠ "copy" → allInts raw = some vals →
        (sel.filterMap (fun i => vals.get? i)).length ≠ sel.length →
        processFile ⟨enc, some raw, t⟩ ⟨some d, tr, sel, ex⟩ = .trackMismatch) ∧
    (∀ (cfg : JobConfig) (dur : ℚ) (audioVals : List ℚ) (f : FileInfo) (b : ℤ),
        f.encodeExitZero = false →
        calculate_video_bitrate cfg.targetSize (some dur) (audioVals.map some) = some b →
        finishFixed cfg dur audioVals f = .encodeFailed) ∧
    (runBatch ⟨"aac", some [some 128, some 128], some 100⟩
        [⟨some 600, none, [0, 1], true⟩, ⟨some 600, none, [0, 1, 2], true⟩,
          ⟨some 600, none, [0, 1], true⟩]
      = [.completed 1142, .trackMismatch, .completed 1142]) := by
  refine ⟨?_, ?_, ?_, ?_, ?_⟩
  · intro cfg files
    induction files with
    | nil => rfl
    | cons f fs ih => simp [runBatch, ih]
  · intro cfg files
    induction files with
    | nil => intro i; simp [runBatch]
    | cons f fs ih =>
      intro i
      cases i with
      | zero => rfl
      | succ j => simpa [runBatch] using ih j
  · intro enc raw vals t d tr sel ex henc hints hmis
    unfold processFile
    dsimp only
    rw [if_neg (by simpa using henc)]
    rw [hints]
    dsimp only
    rw [if_pos hmis]
  · intro cfg dur audioVals f b hexit hcalc
    unfold finishFixed
    rw [hcalc]
    dsimp only
    rw [if_neg (by simp [hexit])]
  · with_unfolding_all rfl

/-- Witness for C8: the mismatching file of the 3-file example yields the
configuration-mismatch outcome, and a file whose transcoder exits non-zero
yields the encode-failure outcome. -/
theorem C8_batch_isolation_witness :
    processFile ⟨"aac", some [some 128, some 128], some 100⟩
        ⟨some 600, none, [0, 1, 2], true⟩ = .trackMismatch ∧
      finishFixed ⟨"aac", some [some 128, some 128], some 100⟩ 600 [128, 128]
        ⟨some 600, none, [0, 1], false⟩ = .encodeFailed :=
  ⟨C8_batch_isolation.2.2.1 "aac" [some 128, some 128] [128, 128] (some 100) 600 none
     [0, 1, 2] true (by decide) (by with_unfolding_all rfl) (by decide),
   C8_batch_isolation.2.2.2.1 ⟨"aac", some [some 128, some 128], some 100⟩ 600 [128, 128]
     ⟨some 600, none, [0, 1], false⟩ 1142 rfl (by with_unfolding_all rfl)⟩

/-- C9 (amended): progress parsing extracts from each transcoder output line
a decimal or integer number followed by a single space and a percent sign;
for such a line the current-file progress is the integer part of the
percentage and the overall progress is the integer part of
(filesCompleted + percentage/100) / totalFiles × 100 — the example line
yields 42 and 42; lines without such a token emit no progress update. -/
theorem C9_progress_parsing :
    (parse_handbrake_output 0 1 "Encoding: task 1 of 1, 42.50 %" = some ⟨42, 42⟩) ∧
    (∀ (processed total : ℕ) (line : String) (p : ℚ),
        extract_percentage line = some p →
        parse_handbrake_output processed total line
          = some ⟨pyInt (((processed : ℚ) + p / 100) / (total : ℚ) * 100), pyInt p⟩) ∧
    (∀ (processed total : ℕ) (line : String),
        extract_percentage line = none →
        parse_handbrake_output processed total line = none) ∧
    (extract_percentage "Muxing: this may take a while..." = none) ∧
    (pyInt (((0 : ℚ) + (85/2) / 100) / (1 : ℚ) * 100) = 42) := by
  refine ⟨?_, ?_, ?_, ?_, ?_⟩
  · with_unfolding_all rfl
  · intro processed total line p hline
    unfold parse_handbrake_output
    rw [hline]
    rfl
  · intro processed total line hline
    unfold parse_handbrake_output
    rw [hline]
    rfl
  · with_unfolding_all rfl
  · with_unfolding_all rfl

/-- Witness for C9: the example line carries percentage 42.5 and at 3 of 4
files completed the parser emits exactly the two integer parts of the
claim's formulas. -/
theorem C9_progress_parsing_witness :
    extract_percentage "Encoding: task 1 of 1, 42.50 %" = some (85/2) ∧
      parse_handbrake_output 3 4 "Encoding: task 1 of 1, 42.50 %"
        = some ⟨pyInt ((((3 : ℕ) : ℚ) + (85/2) / 100) / ((4 : ℕ) : ℚ) * 100),
            pyInt (85/2)⟩ :=
  ⟨by with_unfolding_all rfl,
   C9_progress_parsing.2.1 3 4 "Encoding: task 1 of 1, 42.50 %" (85/2)
     (by with_unfolding_all rfl)⟩

/-- C9 counterexample: the line "50%" contains the integer 50 immediately
followed by a percent sign, so the claim requires current-file progress 50,
but the code's regex demands a space before the percent sign and emits
nothing; conversely on the claim's own example line no number is immediately
followed by a percent sign (a space intervenes), so the claim as stated
would leave progress unchanged there. -/
theorem C9_counterexample :
    spec_progress_token "50%" = some 50 ∧
      parse_handbrake_output 0 1 "50%" = none ∧
      spec_progress_token "Encoding: task 1 of 1, 42.50 %" = none :=
  ⟨by with_unfolding_all rfl, by with_unfolding_all rfl, by with_unfolding_all rfl⟩

/-- C10: with pass-through audio the total used for the video-bitrate
computation is `get_audio_bitrate` over all audio tracks the inspector
reports — independent of the file's selected tracks — where a track with an
absent or "N/A" bitrate contributes 0 kbps, and the total is truncated to an
integer number of kbps. -/
theorem C10_copy_audio_total :
    (∀ (t : Option ℚ) (ab : Option (List (Option ℤ))) (d : ℚ)
        (tracks : List BitRateField) (sel1 sel2 : List ℕ) (ex : Bool),
        processFile ⟨"copy", ab, t⟩ ⟨some d, some tracks, sel1, ex⟩
          = processFile ⟨"copy", ab, t⟩ ⟨some d, some tracks, sel2, ex⟩) ∧
    (∀ (t : Option ℚ) (ab : Option (List (Option ℤ))) (d : ℚ)
        (tracks : List BitRateField) (sel : List ℕ) (ex : Bool),
        processFile ⟨"copy", ab, t⟩ ⟨some d, some tracks, sel, ex⟩
          = finishFixed ⟨"copy", ab, t⟩ d [((get_audio_bitrate tracks : ℤ) : ℚ)]
              ⟨some d, some tracks, sel, ex⟩) ∧
    (∀ tracks, get_audio_bitrate tracks = pyInt ((tracks.map trackKbps).sum)) ∧
    (get_audio_bitrate [.num 128000, .na, .absent, .num 1536] = 129) := by
  refine ⟨?_, ?_, ?_, ?_⟩
  · intro t ab d tracks sel1 sel2 ex
    rfl
  · intro t ab d tracks sel ex
    rfl
  · intro tracks
    unfold get_audio_bitrate
    rw [audioSumKbps_eq_map_sum]
  · with_unfolding_all rfl

end HandbrakeEncoder
